import Mathlib

/-!
Shallow embedding of the investTemplate price-tracking scripts
(`src/07-标的追踪/auto_stock_tracker.py` and `src/07-标的追踪/每日价格追踪.py`).

Prices and percentages are modelled as exact rationals (the Python sources
use floats; all the properties below concern the arithmetic the source
writes, which we take over ℚ).  Python's `round(x, n)` rounds half to even;
`roundHalfEven`/`round2`/`round1` model it exactly.  A Python `dict` is an
insertion-ordered association list with unique keys; Python truthiness of a
float/None field is modelled explicitly wherever the source relies on it.
A raised exception is modelled as `none` / an `err` constructor; a total
Lean function models source code that cannot raise on the given inputs.
-/

namespace Invest

/-- Round a rational to the nearest integer, ties to even (Python `round`). -/
def roundHalfEven (y : ℚ) : ℤ :=
  let f := ⌊y⌋
  let r := y - f
  if r < 1/2 then f
  else if 1/2 < r then f + 1
  else if f % 2 = 0 then f else f + 1

/-- Python `round(x, 2)` over exact rationals. -/
def round2 (x : ℚ) : ℚ := (roundHalfEven (x * 100) : ℚ) / 100

/-- Python `round(x, 1)` over exact rationals. -/
def round1 (x : ℚ) : ℚ := (roundHalfEven (x * 10) : ℚ) / 10

/-- Lexicographic strict comparison of char lists by code point, as Python
compares `str` values (dates are `YYYY-MM-DD` strings, so this order is the
chronological one). -/
def strLt : List Char → List Char → Bool
  | [], [] => false
  | [], _ :: _ => true
  | _ :: _, [] => false
  | a :: as, b :: bs =>
    if a.val < b.val then true
    else if b.val < a.val then false
    else strLt as bs

/-- `a ≤ b` on strings by code point. -/
def strLe (a b : String) : Bool := !(strLt b.data a.data)

/-- One price record, the dict `{'date': ..., 'price': ..., 'change_pct': ...}`
appended to a symbol's `prices` list. -/
structure PriceObservation where
  date : String
  price : ℚ
  change_pct : ℚ
deriving DecidableEq

/-- One symbol's entry of `self.data`: the dict
`{'name', 'category', 'target_drop', 'base_price', 'prices'}`.
`base_price` is `none` for JSON `null`. -/
structure SymbolRecord where
  name : String
  category : String
  target_drop : ℚ
  base_price : Option ℚ
  prices : List PriceObservation
deriving DecidableEq

/-- `self.data`: a Python dict from stock code to record, modelled as an
insertion-ordered association list (keys are unique in any state a dict
can reach). -/
abbrev Store := List (String × SymbolRecord)

/-- Dict key lookup (`self.data[code]` / `code in self.data`). -/
def lookup : Store → String → Option SymbolRecord
  | [], _ => none
  | (c, r) :: rest, code => if c = code then some r else lookup rest code

/-- In-place update of the entry at a key, preserving dict order. -/
def updateRec : Store → String → (SymbolRecord → SymbolRecord) → Store
  | [], _, _ => []
  | (c, r) :: rest, code, f =>
    if c = code then (c, f r) :: rest else (c, r) :: updateRec rest code f

/-- Adding a fresh key to a dict appends it at the end. -/
def insertRec (st : Store) (code : String) (r : SymbolRecord) : Store :=
  st ++ [(code, r)]

/-- The keys of the store, in dict order. -/
def keys (st : Store) : List String := st.map Prod.fst

/-- The dates of a record's observations are non-decreasing (the spec's
"ordered by date ascending"). -/
def datesSorted (l : List PriceObservation) : Prop :=
  List.Chain' (fun a b => strLe a.date b.date = true) l

/-- Executable check for `datesSorted`. -/
def datesOk : List PriceObservation → Bool
  | [] => true
  | [_] => true
  | a :: b :: rest => strLe a.date b.date && datesOk (b :: rest)

theorem datesOk_iff : ∀ l : List PriceObservation, datesOk l = true ↔ datesSorted l
  | [] => by simp [datesOk, datesSorted]
  | [a] => by simp [datesOk, datesSorted]
  | a :: b :: rest => by
    rw [datesSorted, List.chain'_cons]
    rw [show datesOk (a :: b :: rest) = (strLe a.date b.date && datesOk (b :: rest)) from rfl]
    rw [Bool.and_eq_true]
    exact and_congr Iff.rfl (datesOk_iff (b :: rest))

instance (l : List PriceObservation) : Decidable (datesSorted l) :=
  decidable_of_iff (datesOk l = true) (datesOk_iff l)

/-- Signal classification shown in the reports: `🔴 可买` (buy) versus
`⚪ 观察` (keep observing). -/
inductive Status where
  | buy
  | observing
deriving DecidableEq

/-! ### `auto_stock_tracker.py` (`AutoStockTracker`) -/

namespace Auto

/-- `base` truthiness guard of line 115:
`change_pct = round((price - base) / base * 100, 2) if base else 0`.
`base` is falsy when it is `None` or `0.0`. -/
def computeChange (base : Option ℚ) (price : ℚ) : ℚ :=
  match base with
  | none => 0
  | some b => if b ≠ 0 then round2 ((price - b) / b * 100) else 0

/-- `existing[0]['price'] = price; existing[0]['change_pct'] = change_pct`:
only the first observation matching the date is overwritten. -/
def replaceFirst : List PriceObservation → String → ℚ → ℚ → List PriceObservation
  | [], _, _, _ => []
  | p :: rest, date, price, change =>
    if p.date = date then { p with price := price, change_pct := change } :: rest
    else p :: replaceFirst rest date price change

/-- Body of `AutoStockTracker.add_price` for a code present in `self.data`
(lines 109-129): set the baseline on first record, compute the change,
then replace the same-date observation in place or append a new one. -/
def stepRecord (rec0 : SymbolRecord) (price : ℚ) (date : String) : SymbolRecord :=
  let rec1 := if rec0.base_price = none then { rec0 with base_price := some price } else rec0
  let change_pct := computeChange rec1.base_price price
  let newPrices :=
    if rec1.prices.filter (fun p => p.date = date) = [] then
      rec1.prices ++ [⟨date, price, change_pct⟩]
    else
      replaceFirst rec1.prices date price change_pct
  { rec1 with prices := newPrices }

/-- `AutoStockTracker.add_price` (lines 104-129).  A code absent from
`self.data` is dropped: `if code not in self.data: return`. -/
def add_price (st : Store) (code : String) (price : ℚ) (date : String) : Store :=
  match lookup st code with
  | none => st
  | some rec0 => updateRec st code (fun _ => stepRecord rec0 price date)

/-- Python `info['base_price'] or latest['price']` (line 160): the left
operand wins unless it is `None` or `0.0`. -/
def pyOr (o : Option ℚ) (d : ℚ) : ℚ :=
  match o with
  | none => d
  | some b => if b ≠ 0 then b else d

/-- One overview row of `generate_report` (the table columns of
lines 180-183 plus the 状态 classification). -/
structure Row where
  code : String
  name : String
  category : String
  base : ℚ
  current : ℚ
  change_pct : ℚ
  target_drop : ℚ
  target_price : ℚ
  distance : ℚ
  status : Status
deriving DecidableEq

/-- Loop body of `generate_report` (lines 155-183) for one `(code, info)`
pair: `none` when the symbol has no prices and is skipped.  The `distance`
guard mirrors line 178: `... if target_price else 0`. -/
def mkRow (code : String) (info : SymbolRecord) : Option Row :=
  match info.prices.getLast? with
  | none => none
  | some latest =>
    let base := pyOr info.base_price latest.price
    let target_price := round2 (base * (1 - info.target_drop / 100))
    let current := latest.price
    let change_pct := latest.change_pct
    let status := if change_pct ≤ -info.target_drop then Status.buy else Status.observing
    let distance := if target_price ≠ 0 then round1 ((current - target_price) / target_price * 100) else 0
    some { code := code, name := info.name, category := info.category,
           base := base, current := current, change_pct := change_pct,
           target_drop := info.target_drop, target_price := target_price,
           distance := distance, status := status }

/-- The 追踪概览 table of `generate_report`: one row per symbol with at
least one observation, in dict order. -/
def overview (st : Store) : List Row :=
  st.filterMap (fun e => mkRow e.1 e.2)

/-- The 买入提醒 section collects the rows classified `buy`. -/
def buySignals (st : Store) : List Row :=
  (overview st).filter (fun r => r.status = Status.buy)

end Auto

/-! ### `每日价格追踪.py` (`StockTracker`) -/

namespace Daily

/-- Metadata of one `STOCKS` entry. -/
structure WatchEntry where
  name : String
  category : String
  target_drop : ℚ
deriving DecidableEq

/-- The static `STOCKS` configuration (lines 14-40). -/
def STOCKS : List (String × WatchEntry) :=
  [("1398.HK", ⟨"工商银行", "内银股", 10⟩),
   ("3988.HK", ⟨"中国银行", "内银股", 10⟩),
   ("0939.HK", ⟨"建设银行", "内银股", 10⟩),
   ("1288.HK", ⟨"农业银行", "内银股", 10⟩),
   ("1088.HK", ⟨"中国神华", "能源股", 15⟩),
   ("1898.HK", ⟨"中煤能源", "能源股", 15⟩),
   ("0386.HK", ⟨"中国石油", "能源股", 15⟩),
   ("0857.HK", ⟨"中国石油股份", "能源股", 15⟩),
   ("0836.HK", ⟨"华润电力", "公用事业", 15⟩),
   ("0902.HK", ⟨"华能国际", "公用事业", 15⟩),
   ("2380.HK", ⟨"中国电力", "公用事业", 15⟩),
   ("3311.HK", ⟨"中国建筑国际", "基建", 15⟩),
   ("0960.HK", ⟨"龙湖集团", "地产", 20⟩),
   ("0882.HK", ⟨"天津发展", "烟蒂股", 5⟩),
   ("3320.HK", ⟨"华润医药", "烟蒂股", 10⟩),
   ("0363.HK", ⟨"同仁堂国药", "烟蒂股", 15⟩)]

/-- `STOCKS.get(code, {})`. -/
def stocksLookup : List (String × WatchEntry) → String → Option WatchEntry
  | [], _ => none
  | (c, e) :: rest, code => if c = code then some e else stocksLookup rest code

/-- `StockTracker._calc_change` (lines 81-86): falls back to `0` when the
code is unknown or its `base_price` is falsy (`None` or `0.0`). -/
def calc_change (st : Store) (code : String) (current_price : ℚ) : ℚ :=
  match lookup st code with
  | none => 0
  | some r =>
    match r.base_price with
    | none => 0
    | some b => if b ≠ 0 then round2 ((current_price - b) / b * 100) else 0

/-- The record `StockTracker.add_price` creates for a code it has not seen
(lines 64-71): registry metadata, or `Unknown`/`Unknown`/`10` placeholders,
with `base_price` set to the first observed price. -/
def newRecord (code : String) (price : ℚ) : SymbolRecord :=
  { name := ((stocksLookup STOCKS code).map WatchEntry.name).getD "Unknown",
    category := ((stocksLookup STOCKS code).map WatchEntry.category).getD "Unknown",
    target_drop := ((stocksLookup STOCKS code).map WatchEntry.target_drop).getD 10,
    base_price := some price,
    prices := [] }

/-- `StockTracker.add_price` (lines 59-79): create the record if missing,
then unconditionally append the observation (no same-date check). -/
def add_price (st : Store) (code : String) (price : ℚ) (date : String) : Store :=
  let st1 :=
    match lookup st code with
    | some _ => st
    | none => insertRec st code (newRecord code price)
  updateRec st1 code (fun r =>
    { r with prices := r.prices ++ [⟨date, price, calc_change st1 code price⟩] })

/-- One report dict of `get_report` (lines 100-112). -/
structure Row where
  code : String
  name : String
  category : String
  current : ℚ
  base : ℚ
  change_pct : ℚ
  target_drop : ℚ
  target_price : ℚ
  distance : ℚ
  status : Status
  last_update : String
deriving DecidableEq

/-- Outcome of one `get_report` loop iteration. -/
inductive RowResult where
  | err
  | skip
  | row (r : Row)
deriving DecidableEq

/-- Loop body of `get_report` (lines 93-112).  `err` models a raised
exception: `TypeError` when `base_price` is `None` at line 98, or
`ZeroDivisionError` at line 109 when the (unrounded) target price is zero;
the 目标价格 column rounds the target price but 距离目标 divides by the
unrounded value. -/
def mkRow (code : String) (info : SymbolRecord) : RowResult :=
  match info.prices.getLast? with
  | none => RowResult.skip
  | some latest =>
    match info.base_price with
    | none => RowResult.err
    | some b =>
      let target_price := b * (1 - info.target_drop / 100)
      if target_price = 0 then RowResult.err
      else
        RowResult.row
          { code := code, name := info.name, category := info.category,
            current := latest.price, base := b,
            change_pct := latest.change_pct, target_drop := info.target_drop,
            target_price := round2 target_price,
            distance := round1 ((latest.price - target_price) / target_price * 100),
            status := if latest.change_pct ≤ -info.target_drop then Status.buy else Status.observing,
            last_update := latest.date }

/-- `StockTracker.get_report`: `none` when some iteration raises, otherwise
the rows in dict order. -/
def get_report : Store → Option (List Row)
  | [] => some []
  | (code, info) :: rest =>
    match mkRow code info with
    | RowResult.err => none
    | RowResult.skip => get_report rest
    | RowResult.row r => (get_report rest).map (fun l => r :: l)

end Daily

/-! ### Persistence (`save_data` / `load_data`)

Both scripts persist `self.data` with `json.dump` and read it back with
`json.load`; the JSON document mirrors the store shape exactly
(`base_price` becomes `null` when unset).  `save_data` renders the store to
a JSON value, `load_data` parses one back, failing on any shape mismatch. -/

/-- JSON values (numbers are exact here, as the stored prices and rounded
percentages round-trip exactly through `json.dump`/`json.load`). -/
inductive Json where
  | null : Json
  | num : ℚ → Json
  | str : String → Json
  | arr : List Json → Json
  | obj : List (String × Json) → Json

/-- Serialize one observation dict. -/
def encodeObs (o : PriceObservation) : Json :=
  Json.obj [("date", Json.str o.date), ("price", Json.num o.price),
            ("change_pct", Json.num o.change_pct)]

/-- Serialize the `prices` list. -/
def encodeObsList : List PriceObservation → List Json
  | [] => []
  | o :: rest => encodeObs o :: encodeObsList rest

/-- Serialize one symbol record dict. -/
def encodeRec (r : SymbolRecord) : Json :=
  Json.obj [("name", Json.str r.name), ("category", Json.str r.category),
            ("target_drop", Json.num r.target_drop),
            ("base_price", match r.base_price with
                           | none => Json.null
                           | some b => Json.num b),
            ("prices", Json.arr (encodeObsList r.prices))]

/-- Serialize the whole store, entry by entry in dict order. -/
def encodeEntries : Store → List (String × Json)
  | [] => []
  | (c, r) :: rest => (c, encodeRec r) :: encodeEntries rest

/-- `save_data`: the JSON document written to the tracking file. -/
def save_data (st : Store) : Json := Json.obj (encodeEntries st)

/-- Parse one observation dict. -/
def decodeObs : Json → Option PriceObservation
  | Json.obj [("date", Json.str d), ("price", Json.num p), ("change_pct", Json.num c)] =>
    some ⟨d, p, c⟩
  | _ => none

/-- Parse the `prices` array. -/
def decodeObsList : List Json → Option (List PriceObservation)
  | [] => some []
  | j :: rest =>
    match decodeObs j, decodeObsList rest with
    | some o, some l => some (o :: l)
    | _, _ => none

/-- Parse a `base_price` field (`null` or a number). -/
def decodeBase : Json → Option (Option ℚ)
  | Json.null => some none
  | Json.num b => some (some b)
  | _ => none

/-- Parse one symbol record dict. -/
def decodeRec : Json → Option SymbolRecord
  | Json.obj [("name", Json.str n), ("category", Json.str c),
              ("target_drop", Json.num t), ("base_price", jb),
              ("prices", Json.arr l)] =>
    match decodeBase jb, decodeObsList l with
    | some b, some ps => some ⟨n, c, t, b, ps⟩
    | _, _ => none
  | _ => none

/-- Parse the store entries in order. -/
def decodeEntries : List (String × Json) → Option Store
  | [] => some []
  | (c, j) :: rest =>
    match decodeRec j, decodeEntries rest with
    | some r, some st => some ((c, r) :: st)
    | _, _ => none

/-- `load_data`: parse a persisted JSON document back into a store. -/
def load_data : Json → Option Store
  | Json.obj l => decodeEntries l
  | _ => none

end Invest

namespace Invest

/-! ### Dictionary lemmas -/

theorem lookup_updateRec_self (st : Store) (code : String) (f : SymbolRecord → SymbolRecord) :
    lookup (updateRec st code f) code = (lookup st code).map f := by
  induction st with
  | nil => rfl
  | cons hd tl ih =>
    obtain ⟨c, r⟩ := hd
    by_cases h : c = code
    · simp [updateRec, lookup, h]
    · simp [updateRec, lookup, h, ih]

theorem lookup_updateRec_ne (st : Store) (code c' : String) (f : SymbolRecord → SymbolRecord)
    (h : c' ≠ code) : lookup (updateRec st code f) c' = lookup st c' := by
  induction st with
  | nil => rfl
  | cons hd tl ih =>
    obtain ⟨c, r⟩ := hd
    by_cases hc : c = code
    · subst hc
      simp only [updateRec, lookup, if_pos rfl]
      rw [if_neg fun hx => h hx.symm, if_neg fun hx => h hx.symm]
    · simp only [updateRec, if_neg hc, lookup]
      by_cases hc' : c = c' <;> simp [hc', ih]

theorem lookup_insert_ne (st : Store) (code c' : String) (r : SymbolRecord) (h : c' ≠ code) :
    lookup (insertRec st code r) c' = lookup st c' := by
  induction st with
  | nil => simpa [insertRec, lookup] using Ne.symm h
  | cons hd tl ih =>
    obtain ⟨c, x⟩ := hd
    by_cases hc : c = c'
    · simp [insertRec, lookup, hc]
    · simp only [insertRec, List.cons_append, lookup, if_neg hc]
      simpa [insertRec] using ih

theorem lookup_insert_self (st : Store) (code : String) (r : SymbolRecord)
    (h : lookup st code = none) : lookup (insertRec st code r) code = some r := by
  induction st with
  | nil => simp [insertRec, lookup]
  | cons hd tl ih =>
    obtain ⟨c, x⟩ := hd
    by_cases hc : c = code
    · simp [lookup, hc] at h
    · simp only [lookup, if_neg hc] at h
      simpa [insertRec, lookup, hc] using ih h

/-! ### Arithmetic helper lemmas -/

theorem round2_zero : round2 0 = 0 := by
  norm_num [round2, roundHalfEven]

theorem round2_self_change (p : ℚ) : round2 ((p - p) / p * 100) = 0 := by
  rw [sub_self, zero_div, zero_mul, round2_zero]

/-! ### `AutoStockTracker.add_price` lemmas -/

theorem Auto.lookup_add_price_self (st : Store) (code : String) (p : ℚ) (d : String)
    (rec : SymbolRecord) (h : lookup st code = some rec) :
    lookup (Auto.add_price st code p d) code = some (Auto.stepRecord rec p d) := by
  simp [Auto.add_price, h, lookup_updateRec_self]

theorem Auto.add_price_absent (st : Store) (code : String) (p : ℚ) (d : String)
    (h : lookup st code = none) : Auto.add_price st code p d = st := by
  simp [Auto.add_price, h]

theorem Auto.stepRecord_base (rec : SymbolRecord) (p : ℚ) (d : String) :
    (Auto.stepRecord rec p d).base_price =
      if rec.base_price = none then some p else rec.base_price := by
  by_cases h : rec.base_price = none <;> simp [Auto.stepRecord, h]

theorem Auto.stepRecord_prices (rec : SymbolRecord) (p : ℚ) (d : String) :
    (Auto.stepRecord rec p d).prices =
      if rec.prices.filter (fun o => o.date = d) = [] then
        rec.prices ++ [⟨d, p, Auto.computeChange (Auto.stepRecord rec p d).base_price p⟩]
      else
        Auto.replaceFirst rec.prices d p
          (Auto.computeChange (Auto.stepRecord rec p d).base_price p) := by
  by_cases h : rec.base_price = none <;> simp [Auto.stepRecord, h]

end Invest

namespace Invest

/-! ### `StockTracker.add_price` lemmas -/

theorem Daily.lookup_add_price_present (st : Store) (code : String) (p : ℚ) (d : String)
    (rec : SymbolRecord) (h : lookup st code = some rec) :
    lookup (Daily.add_price st code p d) code
      = some { rec with prices := rec.prices ++ [⟨d, p, Daily.calc_change st code p⟩] } := by
  simp [Daily.add_price, h, lookup_updateRec_self]

theorem Daily.lookup_add_price_absent (st : Store) (code : String) (p : ℚ) (d : String)
    (h : lookup st code = none) :
    lookup (Daily.add_price st code p d) code
      = some { Daily.newRecord code p with
               prices := [⟨d, p,
                 Daily.calc_change (insertRec st code (Daily.newRecord code p)) code p⟩] } := by
  simp only [Daily.add_price, h]
  rw [lookup_updateRec_self, lookup_insert_self st code (Daily.newRecord code p) h]
  rfl

theorem Daily.calc_change_absent_new (st : Store) (code : String) (p : ℚ)
    (h : lookup st code = none) :
    Daily.calc_change (insertRec st code (Daily.newRecord code p)) code p = 0 := by
  unfold Daily.calc_change
  rw [lookup_insert_self st code (Daily.newRecord code p) h]
  simp [Daily.newRecord, round2_zero]

/-! ### Claim theorems (first group) -/

/-- C4: baseline immutability.  For `AutoStockTracker.add_price`, an unset
baseline is set to the upserted price and a set baseline is never changed;
for `StockTracker.add_price`, the record created by the first upsert carries
the upserted price as baseline and later upserts never touch the field. -/
theorem C4_baseline_immutable :
    (∀ (st : Store) (code : String) (p : ℚ) (d : String) (rec : SymbolRecord) (b : ℚ),
      lookup st code = some rec → rec.base_price = some b →
      ∃ rec', lookup (Auto.add_price st code p d) code = some rec' ∧
        rec'.base_price = some b) ∧
    (∀ (st : Store) (code : String) (p : ℚ) (d : String) (rec : SymbolRecord),
      lookup st code = some rec → rec.base_price = none →
      ∃ rec', lookup (Auto.add_price st code p d) code = some rec' ∧
        rec'.base_price = some p) ∧
    (∀ (st : Store) (code : String) (p : ℚ) (d : String) (rec : SymbolRecord),
      lookup st code = some rec →
      ∃ rec', lookup (Daily.add_price st code p d) code = some rec' ∧
        rec'.base_price = rec.base_price) ∧
    (∀ (st : Store) (code : String) (p : ℚ) (d : String),
      lookup st code = none →
      ∃ rec', lookup (Daily.add_price st code p d) code = some rec' ∧
        rec'.base_price = some p) := by
  refine ⟨fun st code p d rec b h hb => ⟨_, Auto.lookup_add_price_self st code p d rec h, ?_⟩,
          fun st code p d rec h hb => ⟨_, Auto.lookup_add_price_self st code p d rec h, ?_⟩,
          fun st code p d rec h => ⟨_, Daily.lookup_add_price_present st code p d rec h, rfl⟩,
          fun st code p d h => ⟨_, Daily.lookup_add_price_absent st code p d h, rfl⟩⟩
  · rw [Auto.stepRecord_base]; simp [hb]
  · rw [Auto.stepRecord_base]; simp [hb]

/-- Sample store entries used by the concrete witnesses below. -/
def recA : SymbolRecord := ⟨"工商银行", "内银股", 10, some 100, []⟩

def stA : Store := [("1398.HK", recA)]

def recN : SymbolRecord := ⟨"建设银行", "内银股", 10, none, []⟩

def stN : Store := [("0939.HK", recN)]

/-- C4 witness: the four parts of `C4_baseline_immutable` at concrete inputs. -/
theorem C4_witness :
    (∃ rec', lookup (Auto.add_price stA "1398.HK" 42 "2024-01-02") "1398.HK" = some rec' ∧
       rec'.base_price = some 100) ∧
    (∃ rec', lookup (Auto.add_price stN "0939.HK" 7 "2024-01-02") "0939.HK" = some rec' ∧
       rec'.base_price = some 7) ∧
    (∃ rec', lookup (Daily.add_price stA "1398.HK" 42 "2024-01-02") "1398.HK" = some rec' ∧
       rec'.base_price = recA.base_price) ∧
    (∃ rec', lookup (Daily.add_price stA "0700.HK" 42 "2024-01-02") "0700.HK" = some rec' ∧
       rec'.base_price = some 42) :=
  ⟨C4_baseline_immutable.1 stA "1398.HK" 42 "2024-01-02" recA 100 rfl rfl,
   C4_baseline_immutable.2.1 stN "0939.HK" 7 "2024-01-02" recN rfl rfl,
   C4_baseline_immutable.2.2.1 stA "1398.HK" 42 "2024-01-02" recA rfl,
   C4_baseline_immutable.2.2.2 stA "0700.HK" 42 "2024-01-02" rfl⟩

/-- C7 counterexample: `AutoStockTracker.add_price` on a symbol absent from
`self.data` is a silent no-op — no placeholder record is created and the
observation is discarded, contradicting the claim. -/
theorem C7_counterexample :
    Auto.add_price [] "0700.HK" 100 "2024-01-01" = [] := rfl

/-- C7 (amended): only `StockTracker.add_price` degrades an unknown symbol
to the `Unknown`/`Unknown`/`10` placeholder record and records the
observation (with change 0); `AutoStockTracker.add_price` drops the call
entirely. -/
theorem C7_unknown_symbol :
    (∀ (st : Store) (code : String) (p : ℚ) (d : String),
      lookup st code = none → Daily.stocksLookup Daily.STOCKS code = none →
      ∃ rec', lookup (Daily.add_price st code p d) code = some rec' ∧
        rec'.name = "Unknown" ∧ rec'.category = "Unknown" ∧ rec'.target_drop = 10 ∧
        rec'.base_price = some p ∧ rec'.prices = [⟨d, p, 0⟩]) ∧
    (∀ (st : Store) (code : String) (p : ℚ) (d : String),
      lookup st code = none → Auto.add_price st code p d = st) := by
  constructor
  · intro st code p d h hs
    refine ⟨_, Daily.lookup_add_price_absent st code p d h, ?_, ?_, ?_, ?_, ?_⟩
    · simp [Daily.newRecord, hs]
    · simp [Daily.newRecord, hs]
    · simp [Daily.newRecord, hs]
    · simp [Daily.newRecord]
    · simp [Daily.calc_change_absent_new st code p h]
  · intro st code p d h
    exact Auto.add_price_absent st code p d h

/-- C7 witness: upserting the unlisted symbol `0700.HK` at price 315. -/
theorem C7_witness :
    (∃ rec', lookup (Daily.add_price stA "0700.HK" 315 "2024-01-02") "0700.HK" = some rec' ∧
       rec'.name = "Unknown" ∧ rec'.category = "Unknown" ∧ rec'.target_drop = 10 ∧
       rec'.base_price = some 315 ∧ rec'.prices = [⟨"2024-01-02", 315, 0⟩]) ∧
    Auto.add_price stA "0700.HK" 315 "2024-01-02" = stA :=
  ⟨C7_unknown_symbol.1 stA "0700.HK" 315 "2024-01-02" rfl rfl,
   C7_unknown_symbol.2 stA "0700.HK" 315 "2024-01-02" rfl⟩

/-- C10: the frame property of both upsert implementations — every record
other than the upserted one is untouched. -/
theorem C10_frame :
    ∀ (st : Store) (code c' : String) (p : ℚ) (d : String), c' ≠ code →
      lookup (Auto.add_price st code p d) c' = lookup st c' ∧
      lookup (Daily.add_price st code p d) c' = lookup st c' := by
  intro st code c' p d h
  constructor
  · cases hlk : lookup st code with
    | none => rw [Auto.add_price_absent st code p d hlk]
    | some rec =>
      simp only [Auto.add_price, hlk]
      exact lookup_updateRec_ne st code c' _ h
  · cases hlk : lookup st code with
    | some rec =>
      simp only [Daily.add_price, hlk]
      exact lookup_updateRec_ne st code c' _ h
    | none =>
      simp only [Daily.add_price, hlk]
      rw [lookup_updateRec_ne _ code c' _ h,
          lookup_insert_ne st code c' (Daily.newRecord code p) h]

/-- C10 witness: upserting `1398.HK` leaves the unrelated key `3988.HK`
untouched in both implementations. -/
theorem C10_witness :
    lookup (Auto.add_price stA "1398.HK" 42 "2024-01-02") "3988.HK" = lookup stA "3988.HK" ∧
    lookup (Daily.add_price stA "1398.HK" 42 "2024-01-02") "3988.HK" = lookup stA "3988.HK" :=
  C10_frame stA "1398.HK" "3988.HK" 42 "2024-01-02" (by decide)

/-! ### Persistence round-trip lemmas -/

theorem decodeObs_encodeObs (o : PriceObservation) : decodeObs (encodeObs o) = some o := by
  cases o; rfl

theorem decodeObsList_encodeObsList (l : List PriceObservation) :
    decodeObsList (encodeObsList l) = some l := by
  induction l with
  | nil => rfl
  | cons o rest ih => simp [encodeObsList, decodeObsList, decodeObs_encodeObs, ih]

theorem decodeRec_encodeRec (r : SymbolRecord) : decodeRec (encodeRec r) = some r := by
  obtain ⟨n, c, t, b, ps⟩ := r
  cases b <;> simp [encodeRec, decodeRec, decodeBase, decodeObsList_encodeObsList]

theorem decodeEntries_encodeEntries (st : Store) : decodeEntries (encodeEntries st) = some st := by
  induction st with
  | nil => rfl
  | cons e rest ih =>
    obtain ⟨c, r⟩ := e
    simp [encodeEntries, decodeEntries, decodeRec_encodeRec, ih]

/-- C9: persistence round-trip — `load_data` parses `save_data`'s document
back to an equal store, every field and the observation order preserved. -/
theorem C9_roundtrip : ∀ st : Store, load_data (save_data st) = some st := by
  intro st
  simp [load_data, save_data, decodeEntries_encodeEntries]

end Invest

namespace Invest

/-! ### Observation-list lemmas for `add_price` -/

theorem mem_getLast? {α : Type _} : ∀ {l : List α} {a : α}, l.getLast? = some a → a ∈ l
  | [], _, h => by simp at h
  | [x], a, h => by simp at h; simp [h]
  | _ :: y :: ys, a, h => by
    rw [List.getLast?_cons_cons] at h
    exact List.mem_cons_of_mem _ (mem_getLast? h)

theorem filter_date_cons_pos (hd : PriceObservation) (tl : List PriceObservation) (d : String)
    (h : hd.date = d) :
    (hd :: tl).filter (fun o => o.date = d) = hd :: tl.filter (fun o => o.date = d) := by
  simp [List.filter_cons, h]

theorem Auto.filter_replaceFirst_head (l : List PriceObservation) (d : String) (P c : ℚ)
    (h : l.filter (fun o => o.date = d) ≠ []) :
    ((Auto.replaceFirst l d P c).filter (fun o => o.date = d)).head? = some ⟨d, P, c⟩ := by
  induction l with
  | nil => simp at h
  | cons hd tl ih =>
    by_cases hdd : hd.date = d
    · simp [Auto.replaceFirst, hdd, List.filter_cons]
    · simp only [Auto.replaceFirst, if_neg hdd]
      have h' : tl.filter (fun o => o.date = d) ≠ [] := by
        simpa [List.filter_cons, hdd] using h
      simpa [List.filter_cons, hdd] using ih h'

theorem Auto.filter_replaceFirst_of_le_one (l : List PriceObservation) (d : String) (P c : ℚ)
    (hlen : (l.filter (fun o => o.date = d)).length ≤ 1)
    (h : l.filter (fun o => o.date = d) ≠ []) :
    (Auto.replaceFirst l d P c).filter (fun o => o.date = d) = [⟨d, P, c⟩] := by
  induction l with
  | nil => simp at h
  | cons hd tl ih =>
    by_cases hdd : hd.date = d
    · have hlen' := hlen
      rw [filter_date_cons_pos hd tl d hdd, List.length_cons] at hlen'
      have htl : tl.filter (fun o => o.date = d) = [] :=
        List.length_eq_zero.mp (by omega)
      simp [Auto.replaceFirst, hdd, List.filter_cons, htl]
    · simp only [Auto.replaceFirst, if_neg hdd]
      have hl' : (tl.filter (fun o => o.date = d)).length ≤ 1 := by
        simpa [List.filter_cons, hdd] using hlen
      have h' : tl.filter (fun o => o.date = d) ≠ [] := by
        simpa [List.filter_cons, hdd] using h
      simpa [List.filter_cons, hdd] using ih hl' h'

theorem Auto.stepRecord_filter_singleton (rec : SymbolRecord) (p : ℚ) (d : String)
    (hlen : (rec.prices.filter (fun o => o.date = d)).length ≤ 1) :
    (Auto.stepRecord rec p d).prices.filter (fun o => o.date = d)
      = [⟨d, p, Auto.computeChange (Auto.stepRecord rec p d).base_price p⟩] := by
  rw [Auto.stepRecord_prices]
  by_cases h : rec.prices.filter (fun o => o.date = d) = []
  · rw [if_pos h, List.filter_append, h]
    simp
  · rw [if_neg h]
    exact Auto.filter_replaceFirst_of_le_one _ _ _ _ hlen h

theorem Auto.stepRecord_filter_head (rec : SymbolRecord) (p : ℚ) (d : String) :
    ((Auto.stepRecord rec p d).prices.filter (fun o => o.date = d)).head?
      = some ⟨d, p, Auto.computeChange (Auto.stepRecord rec p d).base_price p⟩ := by
  rw [Auto.stepRecord_prices]
  by_cases h : rec.prices.filter (fun o => o.date = d) = []
  · rw [if_pos h, List.filter_append, h]
    simp
  · rw [if_neg h]
    exact Auto.filter_replaceFirst_head _ _ _ _ h

/-! ### Claim theorems (second group) -/

/-- The number of observations a record holds for one date (used by the C1
counterexample). -/
def obsCount (st : Store) (code d : String) : Option Nat :=
  (lookup st code).map (fun r => (r.prices.filter (fun o => o.date = d)).length)

/-- C1 counterexample: in `StockTracker.add_price` a same-date re-observation
is appended, not replaced — after two upserts for `2024-01-01` the record
holds two observations for that date, not one. -/
theorem C1_counterexample :
    obsCount (Daily.add_price (Daily.add_price [] "1398.HK" 100 "2024-01-01")
        "1398.HK" 90 "2024-01-01") "1398.HK" "2024-01-01" = some 2 := rfl

/-- C1 (amended): the same-date replace semantics holds for
`AutoStockTracker.add_price` on any record respecting the at-most-one-per-date
invariant: two upserts for the same date leave exactly one observation for
that date, carrying the second price and the change computed from it.
`StockTracker.add_price` appends a duplicate instead (see counterexample). -/
theorem C1_same_date_upsert :
    ∀ (st : Store) (code : String) (p1 p2 : ℚ) (d : String) (rec : SymbolRecord),
      lookup st code = some rec →
      (rec.prices.filter (fun o => o.date = d)).length ≤ 1 →
      ∃ rec', lookup (Auto.add_price (Auto.add_price st code p1 d) code p2 d) code = some rec' ∧
        rec'.prices.filter (fun o => o.date = d)
          = [⟨d, p2, Auto.computeChange rec'.base_price p2⟩] := by
  intro st code p1 p2 d rec h hlen
  have h1 := Auto.lookup_add_price_self st code p1 d rec h
  have hf1 := Auto.stepRecord_filter_singleton rec p1 d hlen
  have hlen1 : ((Auto.stepRecord rec p1 d).prices.filter (fun o => o.date = d)).length ≤ 1 := by
    rw [hf1]; simp
  exact ⟨_, Auto.lookup_add_price_self _ code p2 d _ h1,
         Auto.stepRecord_filter_singleton _ p2 d hlen1⟩

/-- C1 witness: two same-date upserts at prices 101 then 102. -/
theorem C1_witness :
    ∃ rec', lookup (Auto.add_price (Auto.add_price stA "1398.HK" 101 "2024-01-05")
        "1398.HK" 102 "2024-01-05") "1398.HK" = some rec' ∧
      rec'.prices.filter (fun o => o.date = "2024-01-05")
        = [⟨"2024-01-05", 102, Auto.computeChange rec'.base_price 102⟩] :=
  C1_same_date_upsert stA "1398.HK" 101 102 "2024-01-05" recA rfl (by decide)

/-- C3: with a set nonzero baseline `B`, the observation stored for the
upserted date carries `round((P − B)/B × 100, 2)` exactly, in both
implementations (for `StockTracker` it is the appended last observation). -/
theorem C3_change_pct :
    ∀ (st : Store) (code : String) (P : ℚ) (d : String) (rec : SymbolRecord) (B : ℚ),
      lookup st code = some rec → rec.base_price = some B → B ≠ 0 →
      (∃ rec', lookup (Auto.add_price st code P d) code = some rec' ∧
        (rec'.prices.filter (fun o => o.date = d)).head?
          = some ⟨d, P, round2 ((P - B) / B * 100)⟩) ∧
      (∃ rec', lookup (Daily.add_price st code P d) code = some rec' ∧
        rec'.prices.getLast? = some ⟨d, P, round2 ((P - B) / B * 100)⟩) := by
  intro st code P d rec B h hb hbne
  constructor
  · refine ⟨_, Auto.lookup_add_price_self st code P d rec h, ?_⟩
    have hbase : (Auto.stepRecord rec P d).base_price = some B := by
      rw [Auto.stepRecord_base, hb]; simp
    have hhead := Auto.stepRecord_filter_head rec P d
    rw [hbase] at hhead
    simpa [Auto.computeChange, hbne] using hhead
  · refine ⟨_, Daily.lookup_add_price_present st code P d rec h, ?_⟩
    have hc : Daily.calc_change st code P = round2 ((P - B) / B * 100) := by
      simp [Daily.calc_change, h, hb, hbne]
    simp [hc]

/-- C3 witness: price 89 against baseline 100. -/
theorem C3_witness :
    (∃ rec', lookup (Auto.add_price stA "1398.HK" 89 "2024-01-02") "1398.HK" = some rec' ∧
      (rec'.prices.filter (fun o => o.date = "2024-01-02")).head?
        = some ⟨"2024-01-02", 89, round2 ((89 - 100) / 100 * 100)⟩) ∧
    (∃ rec', lookup (Daily.add_price stA "1398.HK" 89 "2024-01-02") "1398.HK" = some rec' ∧
      rec'.prices.getLast? = some ⟨"2024-01-02", 89, round2 ((89 - 100) / 100 * 100)⟩) :=
  C3_change_pct stA "1398.HK" 89 "2024-01-02" recA 100 rfl rfl (by decide)

/-- Record and store with one observation dated `2024-01-02`, and the
sortedness check used by the C6 counterexample. -/
def recW : SymbolRecord := ⟨"工商银行", "内银股", 10, some 100, [⟨"2024-01-02", 101, 1⟩]⟩

def stW : Store := [("1398.HK", recW)]

def sortedAfter (st : Store) (code : String) : Option Bool :=
  (lookup st code).map (fun r => decide (datesSorted r.prices))

/-- C6 counterexample: backfilling `2024-01-01` after `2024-01-02` is
appended at the end by `AutoStockTracker.add_price`, leaving the
observation dates out of ascending order. -/
theorem C6_counterexample :
    sortedAfter (Auto.add_price stW "1398.HK" 99 "2024-01-01") "1398.HK" = some false := rfl

/-- C6 (amended): both implementations append a new-date observation at the
end of the list (`StockTracker` appends unconditionally); the sequence is
kept date-ascending only when the upserted date is ≥ every recorded date —
an out-of-order backfill is appended, not inserted in sorted position. -/
theorem C6_append_order :
    (∀ (st : Store) (code : String) (p : ℚ) (d : String) (rec : SymbolRecord),
      lookup st code = some rec → (∀ o ∈ rec.prices, o.date ≠ d) →
      ∃ rec', lookup (Auto.add_price st code p d) code = some rec' ∧
        rec'.prices = rec.prices ++ [⟨d, p, Auto.computeChange rec'.base_price p⟩] ∧
        (datesSorted rec.prices → (∀ o ∈ rec.prices, strLe o.date d = true) →
          datesSorted rec'.prices)) ∧
    (∀ (st : Store) (code : String) (p : ℚ) (d : String) (rec : SymbolRecord),
      lookup st code = some rec →
      ∃ rec', lookup (Daily.add_price st code p d) code = some rec' ∧
        rec'.prices = rec.prices ++ [⟨d, p, Daily.calc_change st code p⟩] ∧
        (datesSorted rec.prices → (∀ o ∈ rec.prices, strLe o.date d = true) →
          datesSorted rec'.prices)) := by
  constructor
  · intro st code p d rec h hfresh
    refine ⟨_, Auto.lookup_add_price_self st code p d rec h, ?_, ?_⟩
    · rw [Auto.stepRecord_prices]
      have hnil : rec.prices.filter (fun o => o.date = d) = [] := by
        simpa [List.filter_eq_nil_iff] using hfresh
      rw [if_pos hnil]
    · intro hs hle
      rw [Auto.stepRecord_prices]
      have hnil : rec.prices.filter (fun o => o.date = d) = [] := by
        simpa [List.filter_eq_nil_iff] using hfresh
      rw [if_pos hnil]
      refine List.chain'_append.mpr ⟨hs, List.chain'_singleton _, ?_⟩
      intro x hx y hy
      simp only [List.head?_cons, Option.mem_def, Option.some.injEq] at hy
      subst hy
      exact hle x (mem_getLast? hx)
  · intro st code p d rec h
    refine ⟨_, Daily.lookup_add_price_present st code p d rec h, rfl, ?_⟩
    intro hs hle
    refine List.chain'_append.mpr ⟨hs, List.chain'_singleton _, ?_⟩
    intro x hx y hy
    simp only [List.head?_cons, Option.mem_def, Option.some.injEq] at hy
    subst hy
    exact hle x (mem_getLast? hx)

/-- C6 witness: appending date `2024-01-03` after `2024-01-02`. -/
theorem C6_witness :
    (∃ rec', lookup (Auto.add_price stW "1398.HK" 99 "2024-01-03") "1398.HK" = some rec' ∧
      rec'.prices = recW.prices ++ [⟨"2024-01-03", 99, Auto.computeChange rec'.base_price 99⟩] ∧
      (datesSorted recW.prices → (∀ o ∈ recW.prices, strLe o.date "2024-01-03" = true) →
        datesSorted rec'.prices)) ∧
    (∃ rec', lookup (Daily.add_price stW "1398.HK" 99 "2024-01-03") "1398.HK" = some rec' ∧
      rec'.prices = recW.prices ++ [⟨"2024-01-03", 99, Daily.calc_change stW "1398.HK" 99⟩] ∧
      (datesSorted recW.prices → (∀ o ∈ recW.prices, strLe o.date "2024-01-03" = true) →
        datesSorted rec'.prices)) :=
  ⟨C6_append_order.1 stW "1398.HK" 99 "2024-01-03" recW rfl (by decide),
   C6_append_order.2 stW "1398.HK" 99 "2024-01-03" recW rfl⟩

end Invest

namespace Invest

/-! ### Report-row evaluation lemmas -/

theorem Auto.mkRow_eq (code : String) (info : SymbolRecord) (latest : PriceObservation)
    (hl : info.prices.getLast? = some latest) :
    Auto.mkRow code info = some
      { code := code, name := info.name, category := info.category,
        base := Auto.pyOr info.base_price latest.price,
        current := latest.price, change_pct := latest.change_pct,
        target_drop := info.target_drop,
        target_price := round2 (Auto.pyOr info.base_price latest.price
          * (1 - info.target_drop / 100)),
        distance := if round2 (Auto.pyOr info.base_price latest.price
            * (1 - info.target_drop / 100)) ≠ 0 then
          round1 ((latest.price - round2 (Auto.pyOr info.base_price latest.price
            * (1 - info.target_drop / 100)))
            / round2 (Auto.pyOr info.base_price latest.price
              * (1 - info.target_drop / 100)) * 100)
        else 0,
        status := if latest.change_pct ≤ -info.target_drop then Status.buy
          else Status.observing } := by
  simp only [Auto.mkRow, hl]

theorem Daily.mkRow_row_eq (code : String) (info : SymbolRecord) (latest : PriceObservation) (b : ℚ)
    (hl : info.prices.getLast? = some latest) (hb : info.base_price = some b)
    (ht : b * (1 - info.target_drop / 100) ≠ 0) :
    Daily.mkRow code info = Daily.RowResult.row
      { code := code, name := info.name, category := info.category,
        current := latest.price, base := b,
        change_pct := latest.change_pct, target_drop := info.target_drop,
        target_price := round2 (b * (1 - info.target_drop / 100)),
        distance := round1 ((latest.price - b * (1 - info.target_drop / 100))
          / (b * (1 - info.target_drop / 100)) * 100),
        status := if latest.change_pct ≤ -info.target_drop then Status.buy
          else Status.observing,
        last_update := latest.date } := by
  simp only [Daily.mkRow, hl, hb]
  rw [if_neg ht]

theorem Daily.mkRow_err_zero (code : String) (info : SymbolRecord) (latest : PriceObservation)
    (b : ℚ) (hl : info.prices.getLast? = some latest) (hb : info.base_price = some b)
    (ht : b * (1 - info.target_drop / 100) = 0) :
    Daily.mkRow code info = Daily.RowResult.err := by
  simp only [Daily.mkRow, hl, hb]
  rw [if_pos ht]

theorem Daily.mkRow_err_none (code : String) (info : SymbolRecord) (latest : PriceObservation)
    (hl : info.prices.getLast? = some latest) (hb : info.base_price = none) :
    Daily.mkRow code info = Daily.RowResult.err := by
  simp only [Daily.mkRow, hl, hb]

/-! ### Claim theorems (third group) -/

/-- C2: the buy-signal boundary is inclusive in both report generators:
`change_pct = −target_drop` exactly classifies as buy, and
`change_pct = −target_drop + 0.01` classifies as observing.  (For
`StockTracker.get_report` the row exists provided the target price is
nonzero, otherwise the generator raises.) -/
theorem C2_signal_boundary :
    (∀ (code : String) (info : SymbolRecord) (latest : PriceObservation),
      info.prices.getLast? = some latest →
      (latest.change_pct = -info.target_drop →
        ∃ row, Auto.mkRow code info = some row ∧ row.status = Status.buy) ∧
      (latest.change_pct = -info.target_drop + 1/100 →
        ∃ row, Auto.mkRow code info = some row ∧ row.status = Status.observing)) ∧
    (∀ (code : String) (info : SymbolRecord) (latest : PriceObservation) (b : ℚ),
      info.prices.getLast? = some latest → info.base_price = some b →
      b * (1 - info.target_drop / 100) ≠ 0 →
      (latest.change_pct = -info.target_drop →
        ∃ row, Daily.mkRow code info = Daily.RowResult.row row ∧
          row.status = Status.buy) ∧
      (latest.change_pct = -info.target_drop + 1/100 →
        ∃ row, Daily.mkRow code info = Daily.RowResult.row row ∧
          row.status = Status.observing)) := by
  constructor
  · intro code info latest hl
    constructor
    · intro hc
      refine ⟨_, Auto.mkRow_eq code info latest hl, ?_⟩
      simp only
      rw [if_pos (le_of_eq hc)]
    · intro hc
      refine ⟨_, Auto.mkRow_eq code info latest hl, ?_⟩
      simp only
      rw [if_neg]
      rw [hc]
      intro hle
      linarith
  · intro code info latest b hl hb ht
    constructor
    · intro hc
      refine ⟨_, Daily.mkRow_row_eq code info latest b hl hb ht, ?_⟩
      simp only
      rw [if_pos (le_of_eq hc)]
    · intro hc
      refine ⟨_, Daily.mkRow_row_eq code info latest b hl hb ht, ?_⟩
      simp only
      rw [if_neg]
      rw [hc]
      intro hle
      linarith

/-- Records sitting exactly on and just above the signal boundary. -/
def obsBuy : PriceObservation := ⟨"2024-01-01", 90, -10⟩

def obsObs : PriceObservation := ⟨"2024-01-01", 91, -10 + 1/100⟩

def recBuy : SymbolRecord := ⟨"工商银行", "内银股", 10, some 100, [obsBuy]⟩

def recObs : SymbolRecord := ⟨"工商银行", "内银股", 10, some 100, [obsObs]⟩

/-- C2 witness: `target_drop = 10` with `change_pct = −10` (buy) and
`change_pct = −10 + 0.01` (observing), in both generators. -/
theorem C2_witness :
    (∃ row, Auto.mkRow "1398.HK" recBuy = some row ∧ row.status = Status.buy) ∧
    (∃ row, Auto.mkRow "1398.HK" recObs = some row ∧ row.status = Status.observing) ∧
    (∃ row, Daily.mkRow "1398.HK" recBuy = Daily.RowResult.row row ∧
      row.status = Status.buy) ∧
    (∃ row, Daily.mkRow "1398.HK" recObs = Daily.RowResult.row row ∧
      row.status = Status.observing) :=
  ⟨(C2_signal_boundary.1 "1398.HK" recBuy obsBuy rfl).1 rfl,
   (C2_signal_boundary.1 "1398.HK" recObs obsObs rfl).2 rfl,
   (C2_signal_boundary.2 "1398.HK" recBuy obsBuy 100 rfl rfl (by norm_num [recBuy])).1 rfl,
   (C2_signal_boundary.2 "1398.HK" recObs obsObs 100 rfl rfl (by norm_num [recObs])).2 rfl⟩

/-- The change percentages stored in one record (used by the C5
counterexample). -/
def changeList (st : Store) (code : String) : Option (List ℚ) :=
  (lookup st code).map (fun r => r.prices.map PriceObservation.change_pct)

/-- Record whose baseline is the float `0.0`. -/
def recZ : SymbolRecord := ⟨"天津发展", "烟蒂股", 5, some 0, []⟩

def stZ : Store := [("0882.HK", recZ)]

/-- C5 counterexample: with a zero baseline, `AutoStockTracker.add_price`
silently stores `change_pct = 0` — the division is coerced to zero by the
`if base else 0` truthiness guard, and no error of any kind is raised. -/
theorem C5_counterexample :
    changeList (Auto.add_price stZ "0882.HK" 5 "2024-01-01") "0882.HK" = some [0] := rfl

/-- C5 (amended): a zero (or missing) baseline and a zero target price are
silently coerced to `0` in `AutoStockTracker` (both in `add_price` and the
report's distance column) and in `StockTracker._calc_change`; only
`StockTracker.get_report` raises on them (`TypeError` for a `null`
baseline, `ZeroDivisionError` for a zero target price). -/
theorem C5_division_coerced :
    (∀ p : ℚ, Auto.computeChange (some 0) p = 0 ∧ Auto.computeChange none p = 0) ∧
    (∀ (code : String) (info : SymbolRecord) (latest : PriceObservation),
      info.prices.getLast? = some latest →
      round2 (Auto.pyOr info.base_price latest.price * (1 - info.target_drop / 100)) = 0 →
      ∃ row, Auto.mkRow code info = some row ∧ row.distance = 0) ∧
    (∀ (st : Store) (code : String) (rec : SymbolRecord) (p : ℚ),
      lookup st code = some rec → rec.base_price = some 0 →
      Daily.calc_change st code p = 0) ∧
    (∀ (code : String) (info : SymbolRecord) (latest : PriceObservation) (b : ℚ),
      info.prices.getLast? = some latest → info.base_price = some b →
      b * (1 - info.target_drop / 100) = 0 →
      Daily.mkRow code info = Daily.RowResult.err) ∧
    (∀ (code : String) (info : SymbolRecord) (latest : PriceObservation),
      info.prices.getLast? = some latest → info.base_price = none →
      Daily.mkRow code info = Daily.RowResult.err) := by
  refine ⟨fun p => ⟨by simp [Auto.computeChange], by simp [Auto.computeChange]⟩,
          fun code info latest hl hz => ⟨_, Auto.mkRow_eq code info latest hl, ?_⟩,
          fun st code rec p h hb => by simp [Daily.calc_change, h, hb],
          fun code info latest b hl hb ht => Daily.mkRow_err_zero code info latest b hl hb ht,
          fun code info latest hl hb => Daily.mkRow_err_none code info latest hl hb⟩
  simp only
  rw [if_neg]
  simp [hz]

/-- Observation and record samples for the C5 witness: zero baselines and a
`target_drop` of 100 forcing a zero target price. -/
def obsZ : PriceObservation := ⟨"2024-01-01", 4, 0⟩

def recZ2 : SymbolRecord := ⟨"天津发展", "烟蒂股", 100, some 0, [obsZ]⟩

def recZb : SymbolRecord := ⟨"天津发展", "烟蒂股", 100, some 4, [obsZ]⟩

def recNoBase : SymbolRecord := ⟨"天津发展", "烟蒂股", 5, none, [obsZ]⟩

/-- C5 witness: each coercion/raise site of `C5_division_coerced` exercised
at concrete inputs. -/
theorem C5_witness :
    (Auto.computeChange (some 0) 5 = 0 ∧ Auto.computeChange none 5 = 0) ∧
    (∃ row, Auto.mkRow "0882.HK" recZ2 = some row ∧ row.distance = 0) ∧
    Daily.calc_change stZ "0882.HK" 5 = 0 ∧
    Daily.mkRow "0882.HK" recZb = Daily.RowResult.err ∧
    Daily.mkRow "0882.HK" recNoBase = Daily.RowResult.err :=
  ⟨C5_division_coerced.1 5,
   C5_division_coerced.2.1 "0882.HK" recZ2 obsZ rfl
     (by norm_num [recZ2, obsZ, Auto.pyOr, round2, roundHalfEven]),
   C5_division_coerced.2.2.1 stZ "0882.HK" recZ 5 rfl rfl,
   C5_division_coerced.2.2.2.1 "0882.HK" recZb obsZ 4 rfl rfl (by norm_num [recZb]),
   C5_division_coerced.2.2.2.2 "0882.HK" recNoBase obsZ rfl rfl⟩

end Invest

namespace Invest

/-! ### Report completeness lemmas -/

theorem Auto.mkRow_nil (c : String) (i : SymbolRecord) (h : i.prices = []) :
    Auto.mkRow c i = none := by
  simp [Auto.mkRow, h]

theorem Auto.mkRow_some (c : String) (i : SymbolRecord) (h : i.prices ≠ []) :
    ∃ row, Auto.mkRow c i = some row ∧ row.code = c := by
  cases hl : i.prices.getLast? with
  | none => exact absurd (List.getLast?_eq_none_iff.mp hl) h
  | some latest => exact ⟨_, Auto.mkRow_eq c i latest hl, rfl⟩

theorem Auto.mkRow_none (c : String) (i : SymbolRecord) (h : Auto.mkRow c i = none) :
    i.prices = [] := by
  by_contra hne
  obtain ⟨row, hr, _⟩ := Auto.mkRow_some c i hne
  rw [h] at hr
  exact Option.noConfusion hr

theorem Auto.mkRow_code (c : String) (i : SymbolRecord) (row : Auto.Row)
    (h : Auto.mkRow c i = some row) : row.code = c := by
  cases hl : i.prices.getLast? with
  | none => simp [Auto.mkRow, hl] at h
  | some latest =>
    rw [Auto.mkRow_eq c i latest hl] at h
    simp only [Option.some.injEq] at h
    subst h
    rfl

theorem Auto.overview_cons_none (c : String) (i : SymbolRecord) (rest : Store)
    (h : Auto.mkRow c i = none) :
    Auto.overview ((c, i) :: rest) = Auto.overview rest := by
  simp [Auto.overview, List.filterMap_cons, h]

theorem Auto.overview_cons_some (c : String) (i : SymbolRecord) (rest : Store) (row : Auto.Row)
    (h : Auto.mkRow c i = some row) :
    Auto.overview ((c, i) :: rest) = row :: Auto.overview rest := by
  simp [Auto.overview, List.filterMap_cons, h]

theorem Auto.overview_filter_notin :
    ∀ (st : Store) (code : String), code ∉ keys st →
      (Auto.overview st).filter (fun r => r.code = code) = []
  | [], _, _ => rfl
  | (c, i) :: rest, code, h => by
    rw [show keys ((c, i) :: rest) = c :: keys rest from rfl, List.mem_cons, not_or] at h
    have hc : code ≠ c := h.1
    have hrest : code ∉ keys rest := h.2
    cases hrow : Auto.mkRow c i with
    | none =>
      rw [Auto.overview_cons_none c i rest hrow]
      exact Auto.overview_filter_notin rest code hrest
    | some row =>
      have hcode : row.code = c := Auto.mkRow_code c i row hrow
      rw [Auto.overview_cons_some c i rest row hrow]
      simp only [List.filter_cons, hcode]
      rw [if_neg (by simpa using Ne.symm hc)]
      exact Auto.overview_filter_notin rest code hrest

theorem Daily.mkRow_skip (c : String) (i : SymbolRecord) (h : i.prices = []) :
    Daily.mkRow c i = Daily.RowResult.skip := by
  simp [Daily.mkRow, h]

theorem Daily.mkRow_skip_inv (c : String) (i : SymbolRecord)
    (h : Daily.mkRow c i = Daily.RowResult.skip) : i.prices = [] := by
  cases hl : i.prices.getLast? with
  | none => exact List.getLast?_eq_none_iff.mp hl
  | some latest =>
    cases hb : i.base_price with
    | none =>
      rw [Daily.mkRow_err_none c i latest hl hb] at h
      exact Daily.RowResult.noConfusion h
    | some b =>
      by_cases ht : b * (1 - i.target_drop / 100) = 0
      · rw [Daily.mkRow_err_zero c i latest b hl hb ht] at h
        exact Daily.RowResult.noConfusion h
      · rw [Daily.mkRow_row_eq c i latest b hl hb ht] at h
        exact Daily.RowResult.noConfusion h

theorem Daily.mkRow_row_code (c : String) (i : SymbolRecord) (r : Daily.Row)
    (h : Daily.mkRow c i = Daily.RowResult.row r) : r.code = c := by
  cases hl : i.prices.getLast? with
  | none =>
    rw [Daily.mkRow_skip c i (List.getLast?_eq_none_iff.mp hl)] at h
    exact Daily.RowResult.noConfusion h
  | some latest =>
    cases hb : i.base_price with
    | none =>
      rw [Daily.mkRow_err_none c i latest hl hb] at h
      exact Daily.RowResult.noConfusion h
    | some b =>
      by_cases ht : b * (1 - i.target_drop / 100) = 0
      · rw [Daily.mkRow_err_zero c i latest b hl hb ht] at h
        exact Daily.RowResult.noConfusion h
      · rw [Daily.mkRow_row_eq c i latest b hl hb ht] at h
        simp only [Daily.RowResult.row.injEq] at h
        subst h
        rfl

theorem Daily.mkRow_row_nonempty (c : String) (i : SymbolRecord) (r : Daily.Row)
    (h : Daily.mkRow c i = Daily.RowResult.row r) : i.prices ≠ [] := by
  intro hnil
  rw [Daily.mkRow_skip c i hnil] at h
  exact Daily.RowResult.noConfusion h

theorem Daily.get_report_cons_err (c : String) (i : SymbolRecord) (rest : Store)
    (h : Daily.mkRow c i = Daily.RowResult.err) :
    Daily.get_report ((c, i) :: rest) = none := by
  simp [Daily.get_report, h]

theorem Daily.get_report_cons_skip (c : String) (i : SymbolRecord) (rest : Store)
    (h : Daily.mkRow c i = Daily.RowResult.skip) :
    Daily.get_report ((c, i) :: rest) = Daily.get_report rest := by
  simp [Daily.get_report, h]

theorem Daily.get_report_cons_row (c : String) (i : SymbolRecord) (rest : Store) (r : Daily.Row)
    (h : Daily.mkRow c i = Daily.RowResult.row r) :
    Daily.get_report ((c, i) :: rest) = (Daily.get_report rest).map (fun l => r :: l) := by
  simp [Daily.get_report, h]

theorem Daily.report_notin :
    ∀ (st : Store) (code : String) (rows : List Daily.Row), code ∉ keys st →
      Daily.get_report st = some rows →
      rows.filter (fun r => r.code = code) = []
  | [], code, rows, _, hrep => by
    simp only [Daily.get_report, Option.some.injEq] at hrep
    subst hrep
    rfl
  | (c, i) :: rest, code, rows, h, hrep => by
    rw [show keys ((c, i) :: rest) = c :: keys rest from rfl, List.mem_cons, not_or] at h
    have hc : code ≠ c := h.1
    have hrest : code ∉ keys rest := h.2
    cases hrow : Daily.mkRow c i with
    | err =>
      rw [Daily.get_report_cons_err c i rest hrow] at hrep
      exact Option.noConfusion hrep
    | skip =>
      rw [Daily.get_report_cons_skip c i rest hrow] at hrep
      exact Daily.report_notin rest code rows hrest hrep
    | row r =>
      rw [Daily.get_report_cons_row c i rest r hrow] at hrep
      obtain ⟨rows', hrep', hr⟩ := Option.map_eq_some'.mp hrep
      subst hr
      have hcode : r.code = c := Daily.mkRow_row_code c i r hrow
      simp only [List.filter_cons, hcode]
      rw [if_neg (by simpa using Ne.symm hc)]
      exact Daily.report_notin rest code rows' hrest hrep'

theorem Daily.report_count_aux :
    ∀ (st : Store) (code : String) (rec : SymbolRecord) (rows : List Daily.Row),
      (keys st).Nodup → lookup st code = some rec → Daily.get_report st = some rows →
      (rows.filter (fun r => r.code = code)).length = if rec.prices = [] then 0 else 1
  | [], code, rec, rows, _, hlk, _ => by simp [lookup] at hlk
  | (c, i) :: rest, code, rec, rows, hnd, hlk, hrep => by
    have hnd0 : c ∉ keys rest ∧ (keys rest).Nodup := by
      simpa [keys, List.nodup_cons] using hnd
    by_cases hc : c = code
    · subst hc
      simp [lookup] at hlk
      subst hlk
      cases hrow : Daily.mkRow c i with
      | err =>
        rw [Daily.get_report_cons_err c i rest hrow] at hrep
        exact Option.noConfusion hrep
      | skip =>
        rw [Daily.get_report_cons_skip c i rest hrow] at hrep
        rw [Daily.report_notin rest c rows hnd0.1 hrep]
        simp [Daily.mkRow_skip_inv c i hrow]
      | row r =>
        rw [Daily.get_report_cons_row c i rest r hrow] at hrep
        obtain ⟨rows', hrep', hr⟩ := Option.map_eq_some'.mp hrep
        subst hr
        have hcode : r.code = c := Daily.mkRow_row_code c i r hrow
        simp only [List.filter_cons, hcode]
        rw [if_pos (by simp)]
        rw [List.length_cons, Daily.report_notin rest c rows' hnd0.1 hrep']
        simp [Daily.mkRow_row_nonempty c i r hrow]
    · simp [lookup, hc] at hlk
      cases hrow : Daily.mkRow c i with
      | err =>
        rw [Daily.get_report_cons_err c i rest hrow] at hrep
        exact Option.noConfusion hrep
      | skip =>
        rw [Daily.get_report_cons_skip c i rest hrow] at hrep
        exact Daily.report_count_aux rest code rec rows hnd0.2 hlk hrep
      | row r =>
        rw [Daily.get_report_cons_row c i rest r hrow] at hrep
        obtain ⟨rows', hrep', hr⟩ := Option.map_eq_some'.mp hrep
        subst hr
        have hcode : r.code = c := Daily.mkRow_row_code c i r hrow
        simp only [List.filter_cons, hcode]
        rw [if_neg (by simpa using hc)]
        exact Daily.report_count_aux rest code rec rows' hnd0.2 hlk hrep'

/-- C8: report completeness.  In both generators, a symbol whose record has
at least one observation contributes exactly one overview row, and a symbol
with no observations contributes none (for `StockTracker.get_report`,
whenever the report is produced at all). -/
theorem C8_report_completeness :
    (∀ (st : Store) (code : String) (rec : SymbolRecord),
      (keys st).Nodup → lookup st code = some rec →
      ((Auto.overview st).filter (fun r => r.code = code)).length
        = if rec.prices = [] then 0 else 1) ∧
    (∀ (st : Store) (code : String) (rec : SymbolRecord),
      (keys st).Nodup → lookup st code = some rec →
      (Daily.get_report st).map (fun rows => (rows.filter (fun r => r.code = code)).length)
        = (Daily.get_report st).map (fun _ => if rec.prices = [] then (0 : ℕ) else 1)) := by
  constructor
  · intro st code rec
    induction st with
    | nil => intro _ hlk; simp [lookup] at hlk
    | cons e rest ih =>
      obtain ⟨c, i⟩ := e
      intro hnd hlk
      have hnd0 : c ∉ keys rest ∧ (keys rest).Nodup := by
        simpa [keys, List.nodup_cons] using hnd
      by_cases hc : c = code
      · subst hc
        simp [lookup] at hlk
        subst hlk
        cases hrow : Auto.mkRow c i with
        | none =>
          rw [Auto.overview_cons_none c i rest hrow,
              Auto.overview_filter_notin rest c hnd0.1]
          simp [Auto.mkRow_none c i hrow]
        | some row =>
          have hcode : row.code = c := Auto.mkRow_code c i row hrow
          have hne : i.prices ≠ [] := fun hnil => by
            rw [Auto.mkRow_nil c i hnil] at hrow
            exact Option.noConfusion hrow
          rw [Auto.overview_cons_some c i rest row hrow]
          simp only [List.filter_cons, hcode]
          rw [if_pos (by simp)]
          rw [List.length_cons, Auto.overview_filter_notin rest c hnd0.1]
          simp [hne]
      · simp [lookup, hc] at hlk
        cases hrow : Auto.mkRow c i with
        | none =>
          rw [Auto.overview_cons_none c i rest hrow]
          exact ih hnd0.2 hlk
        | some row =>
          have hcode : row.code = c := Auto.mkRow_code c i row hrow
          rw [Auto.overview_cons_some c i rest row hrow]
          simp only [List.filter_cons, hcode]
          rw [if_neg (by simpa using hc)]
          exact ih hnd0.2 hlk
  · intro st code rec hnd hlk
    cases hrep : Daily.get_report st with
    | none => rfl
    | some rows =>
      simp only [Option.map_some']
      rw [Daily.report_count_aux st code rec rows hnd hlk hrep]

/-- C8 witness: the one-observation record `recW` contributes exactly one
row in both generators. -/
theorem C8_witness :
    ((Auto.overview stW).filter (fun r => r.code = "1398.HK")).length
      = (if recW.prices = [] then 0 else 1) ∧
    (Daily.get_report stW).map (fun rows => (rows.filter (fun r => r.code = "1398.HK")).length)
      = (Daily.get_report stW).map (fun _ => if recW.prices = [] then (0 : ℕ) else 1) :=
  ⟨C8_report_completeness.1 stW "1398.HK" recW (by decide) rfl,
   C8_report_completeness.2 stW "1398.HK" recW (by decide) rfl⟩

end Invest
